import Mathlib

/-!
# Verification of the `spider` crawl engine

Shallow embedding of the crawler in `src/spider/src/{website,page,configuration}.rs`
and `src/spider/src/utils/get_async.rs`, together with models of the external
collaborator crates the code calls into (`url`, `scraper`, `rayon`, `reqwest`),
each modelled from that collaborator's documented contract and pinned by the
repository's own tests where those exercise it.

The file is organised as: a concrete URL model (for `Page::abs_path` and the
hostname admission check), the `Page` model, the fetch helper, the abstract
crawl state machine (frontier/visited bookkeeping, admission, and the three
round loops `crawl_concurrent`, `crawl_sequential`, `scrape_concurrent`,
modelled with explicit fuel and an explicit dispatch trace), followed by the
theorems about the frozen claims.
-/

set_option maxHeartbeats 1000000

namespace Spider

/-! ## URL model

Model of the parts of the external `url` crate (WHATWG URL standard) that
`Page::abs_path` and `Website::is_allowed` rely on.  The model covers the URL
and href shapes exercised by this repository and its tests: absolute URLs of
special (`http`, `https`, …) and non-special (`tel`, …) schemes, authority
parsing with rejection of forbidden host code points (e.g. the space in the
repository test input `"tel://+212 3456"`), path-absolute / query-only /
fragment-only / protocol-relative / path-relative references, and fragment
removal.  Not modelled (and not exercised by the claims): ports, IP-address
hosts, percent-encoding, and dot-segment normalization. -/

/-- The special schemes of the WHATWG URL standard, as implemented by the
`url` crate: these require an authority and normalize an empty path to "/". -/
def specialSchemes : List String := ["http", "https", "ws", "wss", "ftp", "file"]

/-- Parsed URL record: scheme, optional host (none for opaque-path URLs such
as `tel:123`), serialized path, optional query, optional fragment. -/
structure Url where
  scheme : String
  host : Option String
  path : String
  query : Option String
  fragment : Option String
  deriving DecidableEq, Repr

/-- Characters allowed inside a scheme after the first (alphabetic) one. -/
def isSchemeChar (c : Char) : Bool :=
  c.isAlphanum || c == '+' || c == '-' || c == '.'

/-- Split a leading `scheme ":"` prefix off an input, if present: the scheme
must start with an ASCII letter and be immediately followed by a colon.
Schemes are lowercased as in the WHATWG standard. -/
def splitScheme (cs : List Char) : Option (String × List Char) :=
  let pre := cs.takeWhile isSchemeChar
  let post := cs.dropWhile isSchemeChar
  match pre, post with
  | c :: _, ':' :: rest =>
    if c.isAlpha then some (String.mk (pre.map Char.toLower), rest) else none
  | _, _ => none

/-- Forbidden host code points (WHATWG): a host containing one of these makes
the whole parse fail, which is exactly why `"tel://+212 3456"` does not parse
(space in the host) while `"tel:123"` (opaque path, no host) does. -/
def forbiddenHostChar (c : Char) : Bool :=
  c == ' ' || c == '\t' || c == '\n' || c == '\r' || c == '#' || c == '/' ||
  c == '?' || c == '@' || c == '<' || c == '>' || c == '[' || c == ']' ||
  c == '^' || c == '|' || c == ':' || c == '\\' || c == '%'

/-- Split an input at the first occurrence of `stop`: the part before it, and
(if `stop` occurs) the part after it. -/
def splitOn1 (stop : Char) (cs : List Char) : List Char × Option (List Char) :=
  let pre := cs.takeWhile (fun c => c != stop)
  let post := cs.dropWhile (fun c => c != stop)
  match post with
  | [] => (pre, none)
  | _ :: rest => (pre, some rest)

/-- Parse the remainder of a URL after `scheme ":"`.  `"//"` introduces an
authority (host), validated against the forbidden host code points; otherwise
a non-special scheme takes an opaque path (`tel:123`), while a special scheme
without an authority is rejected (the exotic `https:page` relative form of the
WHATWG standard is outside this model and not exercised by the repository). -/
def parseAfterScheme (scheme : String) (rest : List Char) : Option Url :=
  match rest with
  | '/' :: '/' :: rest2 =>
    let auth := rest2.takeWhile (fun c => c != '/' && c != '?' && c != '#')
    let rest3 := rest2.dropWhile (fun c => c != '/' && c != '?' && c != '#')
    if auth.any forbiddenHostChar then none
    else if auth.isEmpty && specialSchemes.contains scheme then none
    else
      let (beforeFrag, frag) := splitOn1 '#' rest3
      let (pathCs, query) := splitOn1 '?' beforeFrag
      let path := if pathCs.isEmpty && specialSchemes.contains scheme
        then "/" else String.mk pathCs
      some ⟨scheme, some (String.mk auth), path,
        query.map String.mk, frag.map String.mk⟩
  | _ =>
    if specialSchemes.contains scheme then none
    else
      let (beforeFrag, frag) := splitOn1 '#' rest
      let (pathCs, query) := splitOn1 '?' beforeFrag
      some ⟨scheme, none, String.mk pathCs, query.map String.mk, frag.map String.mk⟩

/-- `Url::parse` of the `url` crate: an absolute URL input.  An input without
a scheme is a relative reference and fails ("relative URL without a base"). -/
def Url.parse (s : String) : Option Url :=
  match splitScheme s.toList with
  | none => none
  | some (sch, rest) => parseAfterScheme sch rest

/-- The directory of a path: everything up to and including the last `'/'`. -/
def dirname (p : String) : String :=
  String.mk ((p.toList.reverse.dropWhile (fun c => c != '/')).reverse)

/-- `Url::join` of the `url` crate: resolve an href against a base URL per the
WHATWG standard.  An href carrying its own scheme is parsed as an absolute URL
(so `tel:123` joins to `tel:123`, not to the base); scheme-less hrefs are
resolved relative to the base; a relative (non-fragment) href against an
opaque-path base fails, as does an href whose own parse fails. -/
def Url.join (base : Url) (href : String) : Option Url :=
  match splitScheme href.toList with
  | some (sch, rest) => parseAfterScheme sch rest
  | none =>
    match href.toList with
    | [] => some { base with fragment := none }
    | '/' :: '/' :: rest2 => parseAfterScheme base.scheme ('/' :: '/' :: rest2)
    | '/' :: more =>
      if base.host.isNone then none
      else
        let (beforeFrag, frag) := splitOn1 '#' ('/' :: more)
        let (pathCs, query) := splitOn1 '?' beforeFrag
        some ⟨base.scheme, base.host, String.mk pathCs,
          query.map String.mk, frag.map String.mk⟩
    | '?' :: more =>
      if base.host.isNone then none
      else
        let (q, frag) := splitOn1 '#' more
        some ⟨base.scheme, base.host, base.path, some (String.mk q), frag.map String.mk⟩
    | '#' :: more => some { base with fragment := some (String.mk more) }
    | cs =>
      if base.host.isNone then none
      else
        let (beforeFrag, frag) := splitOn1 '#' cs
        let (pathCs, query) := splitOn1 '?' beforeFrag
        some ⟨base.scheme, base.host, dirname base.path ++ String.mk pathCs,
          query.map String.mk, frag.map String.mk⟩

/-- `Url::set_fragment`. -/
def Url.set_fragment (u : Url) (f : Option String) : Url :=
  { u with fragment := f }

/-- Serialization (`Url::to_string`). -/
def Url.render (u : Url) : String :=
  u.scheme ++ ":" ++
  (match u.host with | some h => "//" ++ h | none => "") ++
  u.path ++
  (match u.query with | some q => "?" ++ q | none => "") ++
  (match u.fragment with | some f => "#" ++ f | none => "")

/-- `Url::domain` of the `url` crate: the host name of the URL, none when the
URL has no host.  (The crate also returns none for IP-address hosts, a case
none of the claims exercises.) -/
def Url.domain (u : Url) : Option String := u.host

/-! ## Page model (`src/spider/src/page.rs`)

`Page` stores the page URL (as a string), the fetched HTML, and the parsed
base URL.  The HTML-parsing/CSS-selector machinery of the external `scraper`
crate is abstracted as a function `extractHrefs : String → List String`
returning the href attributes selected from a document; the empty document
contains no elements, so a faithful extractor yields `[]` on `""` (this is
stated as a hypothesis, never assumed silently). -/

structure Page where
  url : String
  html : String
  base : Url
  deriving DecidableEq, Repr

/-- `Page::build` (via the `PageBuilder` trait): stores the URL and HTML and
parses the URL into `base`; the Rust code's `.expect("Invalid page URL")`
panic on a bad URL is modelled as `none`. -/
def Page.build (url html : String) : Option Page :=
  (Url.parse url).map (fun b => ⟨url, html, b⟩)

/-- `Page::abs_path` (page.rs lines 95-101): resolve `href` against the page's
base; on failure fall back to re-parsing the page's own URL (the argument of
Rust's `unwrap_or` is evaluated eagerly, so the `.expect` re-parse of
`self.url` happens on every call and its panic is modelled as `none`); then
strip the fragment. -/
def Page.abs_path (p : Page) (href : String) : Option Url :=
  match Url.parse p.url with
  | none => none
  | some fb => some (Url.set_fragment ((p.base.join href).getD fb) none)

/-- `Page::links` (page.rs lines 85-93): select the href attributes from the
stored HTML (`extractHrefs` abstracts the `scraper` selector pipeline), clear
the stored HTML (`self.html.clear()`), and return the set of resolved absolute
URL strings.  A panic inside `abs_path` is modelled as `none`. -/
def Page.links (extractHrefs : String → List String) (p : Page) :
    Option (Finset String × Page) :=
  let hrefs := extractHrefs p.html
  let cleared : Page := { p with html := "" }
  match hrefs.mapM (fun h => p.abs_path h) with
  | none => none
  | some us => some (((us.map Url.render).toFinset), cleared)

/-! ## Fetch helper (`src/spider/src/utils/get_async.rs`) -/

/-- The outcome of `client.get(url).send()` followed by `res.text()`:
either the send failed (`err`), or it returned a response with a status code
whose body text extraction may itself fail (`text = none` models
`res.text()` returning `Err(_)`). -/
inductive HttpResponse where
  | ok (status : Nat) (text : Option String)
  | err
  deriving DecidableEq, Repr

/-- `fetch_page_html_async` (get_async.rs lines 4-18): start from an empty
body; only a 200 (`StatusCode::OK`) response whose text extraction succeeds
overwrites it; every error path is silenced and the accumulated body (possibly
empty) is returned.  The function is total: no failure reaches the caller. -/
def fetch_page_html_async (r : HttpResponse) : String :=
  match r with
  | HttpResponse.ok status text =>
    if status = 200 then
      match text with
      | some t => t
      | none => ""
    else ""
  | HttpResponse.err => ""

/-! ## Crawl engine model (`src/spider/src/website.rs`, `configuration.rs`)

The engine is embedded over an arbitrary URL type `α` with decidable
equality (instantiated with the concrete `Url` model where a claim needs it).
`HashSet<Url>` becomes `Finset α`.  The collaborator functions of a crawl —
`Url::domain`, the robots parser's `can_fetch`, the page body fetch performed
by `Page::new`, and the link-extraction pipeline of `Page::links` — are
bundled in `Collab`; a deterministic fetcher/extractor pair is a pure function
of the URL, exactly as the spec's equivalence scenario requires.

Two sources of run-time nondeterminism are made explicit parameters:
`ord : Finset α → List α` models the unspecified iteration order of
`self.links.iter()` over a `HashSet` (constrained, where a theorem needs it,
to enumerate exactly the frontier: `(ord s).Perm s.toList`), and
`arr : List (Finset α) → List (Finset α)` models the arrival order of worker
results on the mpsc channel of the concurrent variants (constrained to a
permutation).  The `while !self.links.is_empty()` loop is embedded with
explicit fuel; the run also returns the list of links for which a fetch was
dispatched (`pool.spawn`/`Page::new`), in dispatch order. -/

/-- `FollowLinks` (configuration.rs lines 7-19). -/
inductive FollowLinks where
  | ALL
  | HOSTNAME
  | SAMEDOMAIN
  | SUBDOMAINS
  | NONE
  deriving DecidableEq, Repr

/-- `Configuration` (configuration.rs lines 38-51). -/
structure Configuration (α : Type) where
  respect_robots_txt : Bool
  blacklist_url : List α
  follow_links : FollowLinks
  user_agent : String
  delay : Nat
  concurrency : Nat

/-- A fetched page as the crawl loops see it: its URL and its stored HTML
body (`Page` with the parsed base URL abstracted away, since over an abstract
URL type the base is the URL itself). -/
structure MPage (α : Type) where
  url : α
  html : String

/-- `Page::links` at the abstract level: extract the absolute links from the
stored HTML (the selector/`abs_path` pipeline is the collaborator function
`extractAbs`, taking the page URL used to build the selectors and the HTML),
and clear the stored HTML — the call returns the links and mutates the page. -/
def MPage.mlinks {α : Type} (extractAbs : α → String → Finset α) (p : MPage α) :
    Finset α × MPage α :=
  (extractAbs p.url p.html, { p with html := "" })

/-- The external collaborators of one crawl: `host` is `Url::domain`,
`robots` is `robot_file_parser.can_fetch("*", url)`, `body` is the page body
returned by the HTTP fetch inside `Page::new` (empty string on any failure,
per `fetch_page_html`/`fetch_page_html_async`), and `extractAbs` is the link
extraction of `Page::links`. -/
structure Collab (α : Type) where
  host : α → Option String
  robots : α → Bool
  body : α → String
  extractAbs : α → String → Finset α

/-- The links discovered by fetching one URL: build the page from the fetched
body (`Page::new`) and run `Page::links` on it — the composite deterministic
fetcher/extractor. -/
def Collab.fetchLinks {α : Type} (C : Collab α) (l : α) : Finset α :=
  (MPage.mlinks C.extractAbs ⟨l, C.body l⟩).1

/-- `Website` (website.rs lines 29-44): configuration, seed URL (`domain`),
frontier (`links`, "contains all non-visited URL"), visited set
(`links_visited`), the page store, and the link-rewrite callback. -/
structure Website (α : Type) where
  configuration : Configuration α
  domain : α
  links : Finset α
  links_visited : Finset α
  pages : List (MPage α)
  on_link_find_callback : α → α

/-- `get_links` (website.rs lines 75-77). -/
def get_links {α : Type} (w : Website α) : Finset α := w.links_visited

/-- Modelled from the spec: `crate::black_list::contains` (`src/black_list.rs`
is not among the provided sources; only its caller `is_allowed` is).  The spec
specifies exact-URL matching for the default build: a URL matches the
blacklist iff it equals one of its entries ("Blacklist exactness: a
blacklisted exact URL is never present in the final Visited set"). -/
def black_list_contains {α : Type} [DecidableEq α] (blacklist : List α) (link : α) : Bool :=
  decide (link ∈ blacklist)

/-- `Website::is_allowed` (website.rs lines 279-297): a link is fetch-worthy
iff it is not already visited, not blacklisted, not denied by robots.txt when
`respect_robots_txt` is set, and passes the `follow_links` scope check —
`NONE`, `SUBDOMAINS` and `SAMEDOMAIN` always refuse, `HOSTNAME` compares
`link.domain()` with the seed's `domain()`, `ALL` always accepts. -/
def is_allowed {α : Type} [DecidableEq α] (C : Collab α) (w : Website α) (link : α) : Bool :=
  if link ∈ w.links_visited then false
  else if black_list_contains w.configuration.blacklist_url link then false
  else if w.configuration.respect_robots_txt && !(C.robots link) then false
  else
    match w.configuration.follow_links with
    | FollowLinks.NONE => false
    | FollowLinks.HOSTNAME => C.host link == C.host w.domain
    | FollowLinks.SUBDOMAINS => false
    | FollowLinks.SAMEDOMAIN => false
    | FollowLinks.ALL => true

/-- The admission/dispatch pass over one round's frontier enumeration
(website.rs lines 157-179): each link failing `is_allowed` is skipped; each
admitted link is inserted into `links_visited` immediately and its fetch job
is spawned — the returned list is the spawned links, in dispatch order.  The
pass only mutates `links_visited`. -/
def dispatch_pass {α : Type} [DecidableEq α] (C : Collab α) :
    Website α → List α → Website α × List α
  | w, [] => (w, [])
  | w, l :: ls =>
    if is_allowed C w l then
      let w' : Website α := { w with links_visited := insert l w.links_visited }
      let r := dispatch_pass C w' ls
      (r.1, l :: r.2)
    else dispatch_pass C w ls

/-- One round of `Website::crawl_concurrent` (website.rs lines 154-190):
dispatch every admitted frontier link (marking it visited before its fetch),
let each worker fetch the page at `on_link_find_callback(link)` and extract
its links, collect all result sets from the channel (in arrival order `arr`),
union them into `new_links`, and replace the frontier by
`new_links - links_visited`.  Returns the updated state and the dispatched
links. -/
def crawl_concurrent_round {α : Type} [DecidableEq α] (C : Collab α)
    (ord : Finset α → List α) (arr : List (Finset α) → List (Finset α))
    (w : Website α) : Website α × List α :=
  let d := dispatch_pass C w (ord w.links)
  let results := arr (d.2.map (fun l => C.fetchLinks (w.on_link_find_callback l)))
  let new_links : Finset α := results.foldl (fun acc s => acc ∪ s) ∅
  ({ d.1 with links := new_links \ d.1.links_visited }, d.2)

/-- The body of `Website::crawl_sequential`'s round (website.rs lines
200-223): iterate the frontier enumeration, skipping links that fail
`is_allowed`, marking each admitted link visited, fetching and extracting its
links inline and extending `new_links`; after the loop replace the frontier
by `new_links - links_visited`.  Returns the final state and the dispatched
links. -/
def crawl_sequential_pass {α : Type} [DecidableEq α] (C : Collab α) :
    Website α → List α → Finset α → Website α × List α
  | w, [], new_links => ({ w with links := new_links \ w.links_visited }, [])
  | w, l :: ls, new_links =>
    if is_allowed C w l then
      let w' : Website α := { w with links_visited := insert l w.links_visited }
      let r := crawl_sequential_pass C w' ls
        (new_links ∪ C.fetchLinks (w.on_link_find_callback l))
      (r.1, l :: r.2)
    else crawl_sequential_pass C w ls new_links

/-- One round of `Website::crawl_sequential`. -/
def crawl_sequential_round {α : Type} [DecidableEq α] (C : Collab α)
    (ord : Finset α → List α) (w : Website α) : Website α × List α :=
  crawl_sequential_pass C w (ord w.links) ∅

/-- The merge step of one `Website::scrape_concurrent` round (website.rs
lines 262-268): for each page received from the channel, take its links
(which clears the page's stored HTML), extend `new_links`, and push the
(now body-less) page into the page store. -/
def scrape_collect {α : Type} [DecidableEq α] (extractAbs : α → String → Finset α) :
    List (MPage α) → Finset α × List (MPage α)
  | [] => (∅, [])
  | p :: ps =>
    let r := MPage.mlinks extractAbs p
    let rest := scrape_collect extractAbs ps
    (r.1 ∪ rest.1, r.2 :: rest.2)

/-- One round of `Website::scrape_concurrent` (website.rs lines 234-271):
the same admission/dispatch as `crawl_concurrent`, but workers send whole
pages; the merge step extracts their links, pushes the cleared pages, and
replaces the frontier by `new_links - links_visited`. -/
def scrape_concurrent_round {α : Type} [DecidableEq α] (C : Collab α)
    (ord : Finset α → List α) (arrP : List (MPage α) → List (MPage α))
    (w : Website α) : Website α × List α :=
  let d := dispatch_pass C w (ord w.links)
  let received := arrP (d.2.map (fun l =>
    let lr := w.on_link_find_callback l
    MPage.mk lr (C.body lr)))
  let m := scrape_collect C.extractAbs received
  ({ d.1 with links := m.1 \ d.1.links_visited, pages := d.1.pages ++ m.2 }, d.2)

/-- The `while !self.links.is_empty()` loop of `crawl_concurrent`, with
explicit fuel; also accumulates the full dispatch trace of the crawl. -/
def crawl_concurrent_run {α : Type} [DecidableEq α] (C : Collab α)
    (ord : Finset α → List α) (arr : List (Finset α) → List (Finset α)) :
    Nat → Website α → Website α × List α
  | 0, w => (w, [])
  | n + 1, w =>
    if w.links = ∅ then (w, [])
    else
      let r := crawl_concurrent_round C ord arr w
      let rest := crawl_concurrent_run C ord arr n r.1
      (rest.1, r.2 ++ rest.2)

/-- The `while !self.links.is_empty()` loop of `crawl_sequential`. -/
def crawl_sequential_run {α : Type} [DecidableEq α] (C : Collab α)
    (ord : Finset α → List α) :
    Nat → Website α → Website α × List α
  | 0, w => (w, [])
  | n + 1, w =>
    if w.links = ∅ then (w, [])
    else
      let r := crawl_sequential_round C ord w
      let rest := crawl_sequential_run C ord n r.1
      (rest.1, r.2 ++ rest.2)

/-- The `while !self.links.is_empty()` loop of `scrape_concurrent`. -/
def scrape_concurrent_run {α : Type} [DecidableEq α] (C : Collab α)
    (ord : Finset α → List α) (arrP : List (MPage α) → List (MPage α)) :
    Nat → Website α → Website α × List α
  | 0, w => (w, [])
  | n + 1, w =>
    if w.links = ∅ then (w, [])
    else
      let r := scrape_concurrent_round C ord arrP w
      let rest := scrape_concurrent_run C ord arrP n r.1
      (rest.1, r.2 ++ rest.2)

/-- `Website::new` (website.rs lines 50-63) at the concrete URL type: parse
the seed (its `.expect("Cannot parse URL")` panic modelled as `none`), start
with the frontier holding exactly the seed, an empty visited set, an empty
page store, and the identity link callback.  `Configuration::new`
(configuration.rs lines 55-72) sets a 250 ms delay and a machine-dependent
positive concurrency (modelled as 16 — no claim depends on the value), with
the remaining fields defaulted (`follow_links` defaults to `HOSTNAME`). -/
def Website.new (domain : String) : Option (Website Url) :=
  match Url.parse domain with
  | none => none
  | some url =>
    some
      { configuration :=
          { respect_robots_txt := false
            blacklist_url := []
            follow_links := FollowLinks.HOSTNAME
            user_agent := "spider/1.6.1"
            delay := 250
            concurrency := 16 }
        domain := url
        links := {url}
        links_visited := ∅
        pages := []
        on_link_find_callback := id }

/-- Modelled from the documented contract of the external `rayon` crate
(`ThreadPoolBuilder`, used by `Website::create_thread_pool`, website.rs lines
110-115): `num_threads(0)` — and an unset thread count — means "select the
number of threads automatically"; it is not an error, and `build()` succeeds,
returning a pool with a positive number of threads (`defaultThreads` stands
for the machine's automatic choice). -/
def create_thread_pool (concurrency defaultThreads : Nat) : Except String Nat :=
  Except.ok (if concurrency = 0 then defaultThreads else concurrency)

/-- `Website::crawl` (website.rs lines 126-130) as the caller sees it: set up,
build the thread pool (an `Except.error` models the `.expect` panic of
`create_thread_pool`, which would abort before any URL is dispatched), then
run the concurrent loop. -/
def Website.crawl {α : Type} [DecidableEq α] (C : Collab α)
    (ord : Finset α → List α) (arr : List (Finset α) → List (Finset α))
    (defaultThreads fuel : Nat) (w : Website α) :
    Except String (Website α × List α) :=
  match create_thread_pool w.configuration.concurrency defaultThreads with
  | Except.error e => Except.error e
  | Except.ok _ => Except.ok (crawl_concurrent_run C ord arr fuel w)

/-! ## Round characterization

The set of links a round admits is determined by the state at the start of
the round: marking one admitted link visited cannot change the admission
decision for a *different* link (only the visited-membership test of
`is_allowed` reads mutable state), and a frontier enumeration never repeats a
link.  This yields a canonical, enumeration-order-free description of every
round, from which the set-algebra claims follow. -/

/-- The frontier links admitted by `is_allowed` in the state `w`. -/
def admitted {α : Type} [DecidableEq α] (C : Collab α) (w : Website α) : Finset α :=
  w.links.filter (fun l => is_allowed C w l = true)

/-- Canonical description of one crawl round: visit every admitted link, and
replace the frontier with the links discovered from them minus everything
visited. -/
def round_canon {α : Type} [DecidableEq α] (C : Collab α) (w : Website α) : Website α :=
  { w with
    links_visited := w.links_visited ∪ admitted C w
    links :=
      ((admitted C w).biUnion fun l => C.fetchLinks (w.on_link_find_callback l)) \
        (w.links_visited ∪ admitted C w) }

/-- Canonical description of the crawl loop. -/
def crawl_run_canon {α : Type} [DecidableEq α] (C : Collab α) :
    Nat → Website α → Website α
  | 0, w => w
  | n + 1, w => if w.links = ∅ then w else crawl_run_canon C n (round_canon C w)

/-! ## Concrete instances

Small executable instances used to evaluate the theorems on concrete inputs:
a three-page site over `Nat` (`0 ↦ {1,2}`, `1 ↦ {0,2}`, `2 ↦ ∅`), the same
link graph over the finite type `Fin 3`, a one-page site over `Unit`, and a
site over the concrete `Url` type seeded at `https://a.com/`. -/

/-- Deterministic collaborators for the `Nat` instance: page `0` has body
`"a"` linking to `1` and `2`, page `1` has body `"b"` linking to `0` and `2`,
every other fetch fails (empty body), and the empty document has no links. -/
def natCollab : Collab Nat :=
  { host := fun _ => none
    robots := fun _ => true
    body := fun n => if n == 0 then "a" else if n == 1 then "b" else ""
    extractAbs := fun n s =>
      if s == "" then ∅
      else if n == 0 && s == "a" then {1, 2}
      else if n == 1 && s == "b" then {0, 2}
      else ∅ }

/-- Fresh crawl state over `Nat`, seeded at `0`, scope `ALL`. -/
def natSite : Website Nat :=
  { configuration :=
      { respect_robots_txt := false
        blacklist_url := []
        follow_links := FollowLinks.ALL
        user_agent := "spider/1.6.1"
        delay := 0
        concurrency := 4 }
    domain := 0
    links := {0}
    links_visited := ∅
    pages := []
    on_link_find_callback := id }

/-- The `Nat` site reconfigured to `follow_links = NONE`. -/
def siteNone : Website Nat :=
  { natSite with configuration :=
      { natSite.configuration with follow_links := FollowLinks.NONE } }

/-- The same collaborators over the finite type `Fin 3`. -/
def finCollab : Collab (Fin 3) :=
  { host := fun _ => none
    robots := fun _ => true
    body := fun n => if n == 0 then "a" else if n == 1 then "b" else ""
    extractAbs := fun n s =>
      if s == "" then ∅
      else if n == 0 && s == "a" then {1, 2}
      else if n == 1 && s == "b" then {0, 2}
      else ∅ }

/-- Fresh crawl state over `Fin 3`, seeded at `0`, scope `ALL`. -/
def finSite : Website (Fin 3) :=
  { configuration :=
      { respect_robots_txt := false
        blacklist_url := []
        follow_links := FollowLinks.ALL
        user_agent := "spider/1.6.1"
        delay := 0
        concurrency := 4 }
    domain := 0
    links := {0}
    links_visited := ∅
    pages := []
    on_link_find_callback := id }

/-- Collaborators for the one-page `Unit` site: the single page has no links. -/
def unitCollab : Collab Unit :=
  { host := fun _ => none
    robots := fun _ => true
    body := fun _ => ""
    extractAbs := fun _ _ => ∅ }

/-- Fresh crawl state over `Unit`: a single seed page with no out-links, so
the link graph's diameter from the seed is `0`. -/
def unitSite : Website Unit :=
  { configuration :=
      { respect_robots_txt := false
        blacklist_url := []
        follow_links := FollowLinks.ALL
        user_agent := "spider/1.6.1"
        delay := 0
        concurrency := 1 }
    domain := ()
    links := {()}
    links_visited := ∅
    pages := []
    on_link_find_callback := id }

/-- Collaborators over the concrete `Url` type: hostnames via `Url.domain`,
robots always allows, every fetch fails (empty body), no links extracted. -/
def urlCollab : Collab Url :=
  { host := Url.domain
    robots := fun _ => true
    body := fun _ => ""
    extractAbs := fun _ _ => ∅ }

/-- The parsed seed `https://a.com/`. -/
def seedA : Url := ⟨"https", some "a.com", "/", none, none⟩

/-- Fresh crawl state seeded at `https://a.com/` with the default
configuration of `Website::new` (scope `HOSTNAME`). -/
def siteA : Website Url :=
  { configuration :=
      { respect_robots_txt := false
        blacklist_url := []
        follow_links := FollowLinks.HOSTNAME
        user_agent := "spider/1.6.1"
        delay := 250
        concurrency := 16 }
    domain := seedA
    links := {seedA}
    links_visited := ∅
    pages := []
    on_link_find_callback := id }

/-- Sort the elements of a multiset into a list by insertion sort (insertion
sort recurses structurally, so concrete instances evaluate inside proofs). -/
def msortList {α : Type} [LinearOrder α] (s : Multiset α) : List α :=
  Quot.liftOn s (List.insertionSort (fun a b => a ≤ b)) (fun l₁ l₂ h =>
    List.eq_of_perm_of_sorted
      ((List.perm_insertionSort _ l₁).trans
        ((Quotient.exact (Quot.sound h)).trans (List.perm_insertionSort _ l₂).symm))
      (List.sorted_insertionSort _ l₁) (List.sorted_insertionSort _ l₂))

/-- A concrete, executable frontier enumeration: the sorted list of a finite
set (one definite resolution of the unspecified `HashSet` iteration order). -/
def sortOrd {α : Type} [LinearOrder α] (s : Finset α) : List α := msortList s.val

/-- `Website::crawl` on the `Nat` site with `concurrency := 0`: the
observable outcome, reduced to `(dispatch trace, sorted visited list)` on
success and `none` on a setup error. -/
def zero_concurrency_crawl : Option (List Nat × List Nat) :=
  match Website.crawl natCollab sortOrd id 8 5
      { natSite with configuration := { natSite.configuration with concurrency := 0 } } with
  | Except.error _ => none
  | Except.ok (wf, tr) => some (tr, sortOrd wf.links_visited)

/-- A concrete href extractor: the empty document has no hrefs, any other
document carries the single href `"/page"`. -/
def demoExtract : String → List String := fun s => if s == "" then [] else ["/page"]

/-- A page of `https://a.com/` whose HTML is still present. -/
def demoPage : Page := ⟨"https://a.com/", "x", ⟨"https", some "a.com", "/", none, none⟩⟩

/-- The same page after `Page::links` cleared its HTML. -/
def demoPageCleared : Page := ⟨"https://a.com/", "", ⟨"https", some "a.com", "/", none, none⟩⟩

theorem msortList_coe {α : Type} [LinearOrder α] (s : Multiset α) :
    (msortList s : Multiset α) = s := by
  refine Quotient.inductionOn s (fun l => ?_)
  exact Quot.sound (List.perm_insertionSort _ l)

/-- `sortOrd` enumerates exactly the elements of the set. -/
theorem sortOrd_perm_toList {α : Type} [LinearOrder α] (s : Finset α) :
    (sortOrd s).Perm s.toList := by
  have h : (sortOrd s : Multiset α) = (s.toList : Multiset α) := by
    simp only [Finset.toList, Multiset.coe_toList]
    exact msortList_coe s.val
  exact Quotient.exact h

theorem is_allowed_true_not_visited {α : Type} [DecidableEq α] (C : Collab α)
    (w : Website α) (l : α) (h : is_allowed C w l = true) : l ∉ w.links_visited := by
  intro hmem
  simp [is_allowed, hmem] at h

theorem is_allowed_of_visited {α : Type} [DecidableEq α] (C : Collab α)
    (w : Website α) (l : α) (h : l ∈ w.links_visited) : is_allowed C w l = false := by
  simp [is_allowed, h]

theorem is_allowed_insert {α : Type} [DecidableEq α] (C : Collab α) (w : Website α)
    (l x : α) (hxl : x ≠ l) :
    is_allowed C { w with links_visited := insert l w.links_visited } x =
      is_allowed C w x := by
  unfold is_allowed
  simp only [Finset.mem_insert, hxl, false_or]

theorem dispatch_pass_eq {α : Type} [DecidableEq α] (C : Collab α) :
    ∀ (L : List α) (w : Website α), L.Nodup →
      dispatch_pass C w L =
        ({ w with links_visited :=
            w.links_visited ∪ (L.filter (fun l => is_allowed C w l)).toFinset },
          L.filter (fun l => is_allowed C w l)) := by
  intro L
  induction L with
  | nil => intro w _; simp [dispatch_pass]
  | cons l ls ih =>
    intro w hnd
    rcases List.nodup_cons.mp hnd with ⟨hl, hls⟩
    by_cases h : is_allowed C w l = true
    · have hfilter :
        ls.filter (fun x => is_allowed C { w with links_visited := insert l w.links_visited } x) =
          ls.filter (fun x => is_allowed C w x) := by
        apply List.filter_congr
        intro x hx
        exact is_allowed_insert C w l x (fun heq => hl (heq ▸ hx))
      simp only [dispatch_pass, h, if_true]
      rw [ih _ hls, hfilter]
      simp only [List.filter_cons_of_pos h, List.toFinset_cons]
      rw [Finset.insert_union, Finset.union_insert]
    · have hb : is_allowed C w l = false := by
        cases hh : is_allowed C w l
        · rfl
        · exact absurd hh h
      simp only [dispatch_pass, hb, Bool.false_eq_true, if_false]
      rw [ih _ hls]
      have hfc : (l :: ls).filter (fun x => is_allowed C w x) =
          ls.filter (fun x => is_allowed C w x) := by
        simp [List.filter_cons, hb]
      rw [hfc]

/-- The structural shape of a dispatch pass: only `links_visited` changes, and
it only grows. -/
theorem dispatch_pass_shape {α : Type} [DecidableEq α] (C : Collab α) :
    ∀ (L : List α) (w : Website α),
      ∃ V : Finset α, w.links_visited ⊆ V ∧
        (dispatch_pass C w L).1 = { w with links_visited := V } := by
  intro L
  induction L with
  | nil => intro w; exact ⟨w.links_visited, Finset.Subset.refl _, rfl⟩
  | cons l ls ih =>
    intro w
    by_cases h : is_allowed C w l = true
    · obtain ⟨V, hsub, heq⟩ := ih { w with links_visited := insert l w.links_visited }
      refine ⟨V, ?_, ?_⟩
      · exact Finset.Subset.trans (Finset.subset_insert l w.links_visited) hsub
      · simp only [dispatch_pass, h, if_true]
        exact heq
    · have hb : is_allowed C w l = false := by
        cases hh : is_allowed C w l
        · rfl
        · exact absurd hh h
      obtain ⟨V, hsub, heq⟩ := ih w
      exact ⟨V, hsub, by simp only [dispatch_pass, hb, Bool.false_eq_true, if_false]; exact heq⟩

theorem dispatch_pass_trace_sublist {α : Type} [DecidableEq α] (C : Collab α) :
    ∀ (L : List α) (w : Website α), (dispatch_pass C w L).2.Sublist L := by
  intro L
  induction L with
  | nil => intro w; simp [dispatch_pass]
  | cons l ls ih =>
    intro w
    by_cases h : is_allowed C w l = true
    · simp only [dispatch_pass, h, if_true]
      exact List.Sublist.cons₂ l (ih _)
    · have hb : is_allowed C w l = false := by
        cases hh : is_allowed C w l
        · rfl
        · exact absurd hh h
      simp only [dispatch_pass, hb, Bool.false_eq_true, if_false]
      exact List.Sublist.cons l (ih _)

theorem dispatch_pass_trace_not_visited {α : Type} [DecidableEq α] (C : Collab α) :
    ∀ (L : List α) (w : Website α) (x : α),
      x ∈ (dispatch_pass C w L).2 → x ∉ w.links_visited := by
  intro L
  induction L with
  | nil => intro w x hx; simp [dispatch_pass] at hx
  | cons l ls ih =>
    intro w x hx
    by_cases h : is_allowed C w l = true
    · simp only [dispatch_pass, h, if_true, List.mem_cons] at hx
      rcases hx with rfl | hx
      · exact is_allowed_true_not_visited C w x h
      · intro hmem
        exact ih _ x hx (Finset.mem_insert_of_mem hmem)
    · have hb : is_allowed C w l = false := by
        cases hh : is_allowed C w l
        · rfl
        · exact absurd hh h
      simp only [dispatch_pass, hb, Bool.false_eq_true, if_false] at hx
      exact ih _ x hx

theorem dispatch_pass_trace_visited_after {α : Type} [DecidableEq α] (C : Collab α) :
    ∀ (L : List α) (w : Website α) (x : α),
      x ∈ (dispatch_pass C w L).2 → x ∈ (dispatch_pass C w L).1.links_visited := by
  intro L
  induction L with
  | nil => intro w x hx; simp [dispatch_pass] at hx
  | cons l ls ih =>
    intro w x hx
    by_cases h : is_allowed C w l = true
    · simp only [dispatch_pass, h, if_true, List.mem_cons] at hx ⊢
      rcases hx with rfl | hx
      · obtain ⟨V, hsub, heq⟩ :=
          dispatch_pass_shape C ls { w with links_visited := insert x w.links_visited }
        rw [heq]
        exact hsub (Finset.mem_insert_self x _)
      · exact ih _ x hx
    · have hb : is_allowed C w l = false := by
        cases hh : is_allowed C w l
        · rfl
        · exact absurd hh h
      simp only [dispatch_pass, hb, Bool.false_eq_true, if_false] at hx ⊢
      exact ih _ x hx

theorem foldl_union_acc {α : Type} [DecidableEq α] :
    ∀ (M : List (Finset α)) (s : Finset α),
      M.foldl (fun a b => a ∪ b) s = s ∪ M.foldl (fun a b => a ∪ b) ∅ := by
  intro M
  induction M with
  | nil => intro s; simp
  | cons m ms ih =>
    intro s
    simp only [List.foldl_cons]
    rw [ih (s ∪ m), ih (∅ ∪ m)]
    simp [Finset.union_assoc]

theorem foldl_union_perm {α : Type} [DecidableEq α] {M₁ M₂ : List (Finset α)}
    (h : M₁.Perm M₂) :
    ∀ s, M₁.foldl (fun a b => a ∪ b) s = M₂.foldl (fun a b => a ∪ b) s := by
  induction h with
  | nil => intro s; rfl
  | cons x _ ih => intro s; simp only [List.foldl_cons]; exact ih _
  | swap x y l => intro s; simp only [List.foldl_cons]; rw [Finset.union_right_comm]
  | trans _ _ ih₁ ih₂ => intro s; rw [ih₁ s, ih₂ s]

theorem foldl_union_map {α β : Type} [DecidableEq α] [DecidableEq β] (f : α → Finset β) :
    ∀ L : List α, (L.map f).foldl (fun a b => a ∪ b) ∅ = L.toFinset.biUnion f := by
  intro L
  induction L with
  | nil => simp
  | cons a L ih =>
    simp only [List.map_cons, List.foldl_cons, List.toFinset_cons, Finset.biUnion_insert]
    rw [foldl_union_acc, ih]
    simp

theorem filter_ord_toFinset {α : Type} [DecidableEq α] (C : Collab α) (w : Website α)
    (L : List α) (hL : L.Perm w.links.toList) :
    (L.filter (fun l => is_allowed C w l)).toFinset = admitted C w := by
  rw [List.toFinset_filter, List.toFinset_eq_of_perm _ _ hL, Finset.toList_toFinset]
  rfl

theorem crawl_concurrent_round_eq {α : Type} [DecidableEq α] (C : Collab α)
    (ord : Finset α → List α) (arr : List (Finset α) → List (Finset α)) (w : Website α)
    (hord : (ord w.links).Perm w.links.toList) (harr : ∀ xs, (arr xs).Perm xs) :
    crawl_concurrent_round C ord arr w =
      (round_canon C w, (ord w.links).filter (fun l => is_allowed C w l)) := by
  have hnd : (ord w.links).Nodup := hord.nodup_iff.mpr (Finset.nodup_toList _)
  simp only [crawl_concurrent_round]
  rw [dispatch_pass_eq C _ _ hnd]
  simp only
  rw [foldl_union_perm (harr _), foldl_union_map, filter_ord_toFinset C w _ hord]
  rfl

theorem crawl_sequential_pass_eq {α : Type} [DecidableEq α] (C : Collab α) :
    ∀ (L : List α) (w : Website α) (acc : Finset α), L.Nodup →
      crawl_sequential_pass C w L acc =
        ({ w with
            links_visited :=
              w.links_visited ∪ (L.filter (fun l => is_allowed C w l)).toFinset
            links :=
              (acc ∪ (L.filter (fun l => is_allowed C w l)).toFinset.biUnion
                  (fun l => C.fetchLinks (w.on_link_find_callback l))) \
                (w.links_visited ∪ (L.filter (fun l => is_allowed C w l)).toFinset) },
          L.filter (fun l => is_allowed C w l)) := by
  intro L
  induction L with
  | nil => intro w acc _; simp [crawl_sequential_pass]
  | cons l ls ih =>
    intro w acc hnd
    rcases List.nodup_cons.mp hnd with ⟨hl, hls⟩
    by_cases h : is_allowed C w l = true
    · have hfilter :
        ls.filter (fun x => is_allowed C { w with links_visited := insert l w.links_visited } x) =
          ls.filter (fun x => is_allowed C w x) := by
        apply List.filter_congr
        intro x hx
        exact is_allowed_insert C w l x (fun heq => hl (heq ▸ hx))
      simp only [crawl_sequential_pass, h, if_true]
      rw [ih _ _ hls, hfilter]
      simp only [List.filter_cons_of_pos h, List.toFinset_cons, Finset.biUnion_insert]
      rw [Finset.insert_union, Finset.union_insert, Finset.union_assoc]
    · have hb : is_allowed C w l = false := by
        cases hh : is_allowed C w l
        · rfl
        · exact absurd hh h
      simp only [crawl_sequential_pass, hb, Bool.false_eq_true, if_false]
      rw [ih _ _ hls]
      have hfc : (l :: ls).filter (fun x => is_allowed C w x) =
          ls.filter (fun x => is_allowed C w x) := by
        simp [List.filter_cons, hb]
      rw [hfc]

theorem crawl_sequential_round_eq {α : Type} [DecidableEq α] (C : Collab α)
    (ord : Finset α → List α) (w : Website α)
    (hord : (ord w.links).Perm w.links.toList) :
    crawl_sequential_round C ord w =
      (round_canon C w, (ord w.links).filter (fun l => is_allowed C w l)) := by
  have hnd : (ord w.links).Nodup := hord.nodup_iff.mpr (Finset.nodup_toList _)
  simp only [crawl_sequential_round]
  rw [crawl_sequential_pass_eq C _ _ _ hnd, filter_ord_toFinset C w _ hord]
  simp only [Finset.empty_union]
  rfl

theorem crawl_concurrent_run_eq {α : Type} [DecidableEq α] (C : Collab α)
    (ord : Finset α → List α) (arr : List (Finset α) → List (Finset α))
    (hord : ∀ s : Finset α, (ord s).Perm s.toList) (harr : ∀ xs, (arr xs).Perm xs) :
    ∀ (n : Nat) (w : Website α),
      (crawl_concurrent_run C ord arr n w).1 = crawl_run_canon C n w := by
  intro n
  induction n with
  | zero => intro w; rfl
  | succ n ih =>
    intro w
    by_cases h : w.links = ∅
    · simp [crawl_concurrent_run, crawl_run_canon, h]
    · simp only [crawl_concurrent_run, crawl_run_canon, h, if_false, if_neg h]
      rw [crawl_concurrent_round_eq C ord arr w (hord _) harr]
      exact ih _

theorem crawl_sequential_run_eq {α : Type} [DecidableEq α] (C : Collab α)
    (ord : Finset α → List α) (hord : ∀ s : Finset α, (ord s).Perm s.toList) :
    ∀ (n : Nat) (w : Website α),
      (crawl_sequential_run C ord n w).1 = crawl_run_canon C n w := by
  intro n
  induction n with
  | zero => intro w; rfl
  | succ n ih =>
    intro w
    by_cases h : w.links = ∅
    · simp [crawl_sequential_run, crawl_run_canon, h]
    · simp only [crawl_sequential_run, crawl_run_canon, h, if_false, if_neg h]
      rw [crawl_sequential_round_eq C ord w (hord _)]
      exact ih _

theorem mem_admitted_iff {α : Type} [DecidableEq α] (C : Collab α) (w : Website α)
    (l : α) : l ∈ admitted C w ↔ l ∈ w.links ∧ is_allowed C w l = true := by
  simp [admitted]

theorem admitted_not_visited {α : Type} [DecidableEq α] (C : Collab α) (w : Website α)
    (l : α) (h : l ∈ admitted C w) : l ∉ w.links_visited :=
  is_allowed_true_not_visited C w l ((mem_admitted_iff C w l).mp h).2

theorem crawl_run_canon_of_empty {α : Type} [DecidableEq α] (C : Collab α) :
    ∀ (n : Nat) (w : Website α), w.links = ∅ → crawl_run_canon C n w = w := by
  intro n w h
  cases n with
  | zero => rfl
  | succ n => simp [crawl_run_canon, h]

theorem round_canon_links_empty_of_admitted_empty {α : Type} [DecidableEq α]
    (C : Collab α) (w : Website α) (h : admitted C w = ∅) :
    (round_canon C w).links = ∅ := by
  simp [round_canon, h]

theorem crawl_run_canon_visited_mono {α : Type} [DecidableEq α] (C : Collab α) :
    ∀ (n : Nat) (w : Website α),
      w.links_visited ⊆ (crawl_run_canon C n w).links_visited := by
  intro n
  induction n with
  | zero => intro w; exact Finset.Subset.refl _
  | succ n ih =>
    intro w
    by_cases h : w.links = ∅
    · simp [crawl_run_canon, h]
    · simp only [crawl_run_canon, h, if_neg h]
      exact Finset.Subset.trans Finset.subset_union_left (ih (round_canon C w))

/-- The crawl loop reaches an empty frontier within `|non-visited universe|+2`
rounds: every round either admits some link (strictly growing the visited
set, which is bounded by the finite URL universe) or admits none, in which
case the merged frontier `∅ - Visited` is empty and the loop exits. -/
theorem crawl_run_canon_terminates {α : Type} [DecidableEq α] [Fintype α]
    (C : Collab α) :
    ∀ (k n : Nat) (w : Website α), (Finset.univ \ w.links_visited).card ≤ k →
      k + 2 ≤ n → (crawl_run_canon C n w).links = ∅ := by
  intro k
  induction k with
  | zero =>
    intro n w hcard hn
    obtain ⟨m, rfl⟩ : ∃ m, n = m + 1 := ⟨n - 1, by omega⟩
    by_cases h : w.links = ∅
    · rw [crawl_run_canon_of_empty C _ w h]; exact h
    · simp only [crawl_run_canon, if_neg h]
      have hadm : admitted C w = ∅ := by
        rw [Finset.eq_empty_iff_forall_not_mem]
        intro l hl
        have hnv : l ∉ w.links_visited := admitted_not_visited C w l hl
        have : l ∈ Finset.univ \ w.links_visited := by
          simp [Finset.mem_sdiff, hnv]
        have : (Finset.univ \ w.links_visited).Nonempty := ⟨l, this⟩
        have := Finset.card_pos.mpr this
        omega
      rw [crawl_run_canon_of_empty C m _
        (round_canon_links_empty_of_admitted_empty C w hadm)]
      exact round_canon_links_empty_of_admitted_empty C w hadm
  | succ k ih =>
    intro n w hcard hn
    obtain ⟨m, rfl⟩ : ∃ m, n = m + 1 := ⟨n - 1, by omega⟩
    by_cases h : w.links = ∅
    · rw [crawl_run_canon_of_empty C _ w h]; exact h
    · simp only [crawl_run_canon, if_neg h]
      by_cases hadm : admitted C w = ∅
      · rw [crawl_run_canon_of_empty C m _
          (round_canon_links_empty_of_admitted_empty C w hadm)]
        exact round_canon_links_empty_of_admitted_empty C w hadm
      · obtain ⟨l, hl⟩ := Finset.nonempty_iff_ne_empty.mpr hadm
        have hnv : l ∉ w.links_visited := admitted_not_visited C w l hl
        have hsub : Finset.univ \ (round_canon C w).links_visited ⊆
            (Finset.univ \ w.links_visited).erase l := by
          intro x hx
          simp only [round_canon, Finset.mem_sdiff, Finset.mem_union] at hx
          rcases hx with ⟨hxu, hxv⟩
          push_neg at hxv
          refine Finset.mem_erase.mpr ⟨?_, ?_⟩
          · intro hxl; exact hxv.2 (hxl ▸ hl)
          · simp [Finset.mem_sdiff, hxu, hxv.1]
        have hlmem : l ∈ Finset.univ \ w.links_visited := by
          simp [Finset.mem_sdiff, hnv]
        have hcard2 : (Finset.univ \ (round_canon C w).links_visited).card ≤ k := by
          have h1 := Finset.card_le_card hsub
          have h2 := Finset.card_erase_of_mem hlmem
          omega
        exact ih m (round_canon C w) hcard2 (by omega)

/-- Every page appended to the store by a scrape merge step went through
`MPage.mlinks`, which clears its HTML. -/
theorem scrape_collect_html_cleared {α : Type} [DecidableEq α]
    (extractAbs : α → String → Finset α) :
    ∀ (ps : List (MPage α)) (q : MPage α),
      q ∈ (scrape_collect extractAbs ps).2 → q.html = "" := by
  intro ps
  induction ps with
  | nil => intro q hq; simp [scrape_collect] at hq
  | cons p ps ih =>
    intro q hq
    simp only [scrape_collect, List.mem_cons] at hq
    rcases hq with rfl | hq
    · rfl
    · exact ih q hq

/-- The structural shape of one scrape round: visited grows, the new frontier
is a difference with the final visited set, and the page store is extended by
HTML-cleared pages only. -/
theorem scrape_concurrent_round_shape {α : Type} [DecidableEq α] (C : Collab α)
    (ord : Finset α → List α) (arrP : List (MPage α) → List (MPage α))
    (w : Website α) :
    ∃ (V X : Finset α) (P : List (MPage α)),
      w.links_visited ⊆ V ∧ (∀ q ∈ P, q.html = "") ∧
      (scrape_concurrent_round C ord arrP w).1 =
        { w with links_visited := V, links := X \ V, pages := w.pages ++ P } := by
  obtain ⟨V, hsub, heq⟩ := dispatch_pass_shape C (ord w.links) w
  refine ⟨V,
    (scrape_collect C.extractAbs (arrP ((dispatch_pass C w (ord w.links)).2.map (fun l =>
      let lr := w.on_link_find_callback l
      MPage.mk lr (C.body lr))))).1,
    (scrape_collect C.extractAbs (arrP ((dispatch_pass C w (ord w.links)).2.map (fun l =>
      let lr := w.on_link_find_callback l
      MPage.mk lr (C.body lr))))).2,
    hsub, ?_, ?_⟩
  · intro q hq
    exact scrape_collect_html_cleared C.extractAbs _ q hq
  · simp only [scrape_concurrent_round]
    rw [heq]

theorem sdiff_inter_eq_empty {α : Type} [DecidableEq α] (s t : Finset α) :
    (s \ t) ∩ t = ∅ := by
  ext x
  simp

theorem crawl_concurrent_round_shape {α : Type} [DecidableEq α] (C : Collab α)
    (ord : Finset α → List α) (arr : List (Finset α) → List (Finset α))
    (w : Website α) :
    ∃ V X : Finset α, w.links_visited ⊆ V ∧
      (crawl_concurrent_round C ord arr w).1 =
        { w with links_visited := V, links := X \ V } := by
  obtain ⟨V, hsub, heq⟩ := dispatch_pass_shape C (ord w.links) w
  refine ⟨V,
    (arr ((dispatch_pass C w (ord w.links)).2.map
      (fun l => C.fetchLinks (w.on_link_find_callback l)))).foldl
      (fun acc s => acc ∪ s) ∅,
    hsub, ?_⟩
  simp only [crawl_concurrent_round]
  rw [heq]

theorem crawl_sequential_pass_shape {α : Type} [DecidableEq α] (C : Collab α) :
    ∀ (L : List α) (w : Website α) (acc : Finset α),
      ∃ V X : Finset α, w.links_visited ⊆ V ∧
        (crawl_sequential_pass C w L acc).1 =
          { w with links_visited := V, links := X \ V } := by
  intro L
  induction L with
  | nil =>
    intro w acc
    exact ⟨w.links_visited, acc, Finset.Subset.refl _, rfl⟩
  | cons l ls ih =>
    intro w acc
    by_cases h : is_allowed C w l = true
    · obtain ⟨V, X, hsub, heq⟩ :=
        ih { w with links_visited := insert l w.links_visited }
          (acc ∪ C.fetchLinks (w.on_link_find_callback l))
      refine ⟨V, X, Finset.Subset.trans (Finset.subset_insert l w.links_visited) hsub, ?_⟩
      simp only [crawl_sequential_pass, h, if_true]
      exact heq
    · have hb : is_allowed C w l = false := by
        cases hh : is_allowed C w l
        · rfl
        · exact absurd hh h
      obtain ⟨V, X, hsub, heq⟩ := ih w acc
      exact ⟨V, X, hsub, by
        simp only [crawl_sequential_pass, hb, Bool.false_eq_true, if_false]; exact heq⟩

theorem crawl_concurrent_round_disjoint {α : Type} [DecidableEq α] (C : Collab α)
    (ord : Finset α → List α) (arr : List (Finset α) → List (Finset α))
    (w : Website α) :
    (crawl_concurrent_round C ord arr w).1.links ∩
      (crawl_concurrent_round C ord arr w).1.links_visited = ∅ := by
  obtain ⟨V, X, _, heq⟩ := crawl_concurrent_round_shape C ord arr w
  rw [heq]
  exact sdiff_inter_eq_empty X V

theorem crawl_concurrent_round_visited_mono {α : Type} [DecidableEq α] (C : Collab α)
    (ord : Finset α → List α) (arr : List (Finset α) → List (Finset α))
    (w : Website α) :
    w.links_visited ⊆ (crawl_concurrent_round C ord arr w).1.links_visited := by
  obtain ⟨V, X, hsub, heq⟩ := crawl_concurrent_round_shape C ord arr w
  rw [heq]
  exact hsub

theorem crawl_sequential_round_disjoint {α : Type} [DecidableEq α] (C : Collab α)
    (ord : Finset α → List α) (w : Website α) :
    (crawl_sequential_round C ord w).1.links ∩
      (crawl_sequential_round C ord w).1.links_visited = ∅ := by
  obtain ⟨V, X, _, heq⟩ := crawl_sequential_pass_shape C (ord w.links) w ∅
  rw [crawl_sequential_round, heq]
  exact sdiff_inter_eq_empty X V

theorem crawl_sequential_round_visited_mono {α : Type} [DecidableEq α] (C : Collab α)
    (ord : Finset α → List α) (w : Website α) :
    w.links_visited ⊆ (crawl_sequential_round C ord w).1.links_visited := by
  obtain ⟨V, X, hsub, heq⟩ := crawl_sequential_pass_shape C (ord w.links) w ∅
  rw [crawl_sequential_round, heq]
  exact hsub

theorem scrape_concurrent_round_disjoint {α : Type} [DecidableEq α] (C : Collab α)
    (ord : Finset α → List α) (arrP : List (MPage α) → List (MPage α))
    (w : Website α) :
    (scrape_concurrent_round C ord arrP w).1.links ∩
      (scrape_concurrent_round C ord arrP w).1.links_visited = ∅ := by
  obtain ⟨V, X, P, _, _, heq⟩ := scrape_concurrent_round_shape C ord arrP w
  rw [heq]
  exact sdiff_inter_eq_empty X V

theorem scrape_concurrent_round_visited_mono {α : Type} [DecidableEq α] (C : Collab α)
    (ord : Finset α → List α) (arrP : List (MPage α) → List (MPage α))
    (w : Website α) :
    w.links_visited ⊆ (scrape_concurrent_round C ord arrP w).1.links_visited := by
  obtain ⟨V, X, P, hsub, _, heq⟩ := scrape_concurrent_round_shape C ord arrP w
  rw [heq]
  exact hsub

theorem crawl_concurrent_run_visited_mono {α : Type} [DecidableEq α] (C : Collab α)
    (ord : Finset α → List α) (arr : List (Finset α) → List (Finset α)) :
    ∀ (n : Nat) (w : Website α),
      w.links_visited ⊆ (crawl_concurrent_run C ord arr n w).1.links_visited := by
  intro n
  induction n with
  | zero => intro w; exact Finset.Subset.refl _
  | succ n ih =>
    intro w
    by_cases h : w.links = ∅
    · simp [crawl_concurrent_run, h]
    · simp only [crawl_concurrent_run, if_neg h]
      exact Finset.Subset.trans (crawl_concurrent_round_visited_mono C ord arr w) (ih _)

theorem crawl_sequential_run_visited_mono {α : Type} [DecidableEq α] (C : Collab α)
    (ord : Finset α → List α) :
    ∀ (n : Nat) (w : Website α),
      w.links_visited ⊆ (crawl_sequential_run C ord n w).1.links_visited := by
  intro n
  induction n with
  | zero => intro w; exact Finset.Subset.refl _
  | succ n ih =>
    intro w
    by_cases h : w.links = ∅
    · simp [crawl_sequential_run, h]
    · simp only [crawl_sequential_run, if_neg h]
      exact Finset.Subset.trans (crawl_sequential_round_visited_mono C ord w) (ih _)

theorem scrape_concurrent_run_visited_mono {α : Type} [DecidableEq α] (C : Collab α)
    (ord : Finset α → List α) (arrP : List (MPage α) → List (MPage α)) :
    ∀ (n : Nat) (w : Website α),
      w.links_visited ⊆ (scrape_concurrent_run C ord arrP n w).1.links_visited := by
  intro n
  induction n with
  | zero => intro w; exact Finset.Subset.refl _
  | succ n ih =>
    intro w
    by_cases h : w.links = ∅
    · simp [scrape_concurrent_run, h]
    · simp only [scrape_concurrent_run, if_neg h]
      exact Finset.Subset.trans (scrape_concurrent_round_visited_mono C ord arrP w) (ih _)

theorem crawl_concurrent_run_disjoint {α : Type} [DecidableEq α] (C : Collab α)
    (ord : Finset α → List α) (arr : List (Finset α) → List (Finset α)) :
    ∀ (n : Nat) (w : Website α),
      (crawl_concurrent_run C ord arr (n + 1) w).1.links ∩
        (crawl_concurrent_run C ord arr (n + 1) w).1.links_visited = ∅ := by
  intro n
  induction n with
  | zero =>
    intro w
    by_cases h : w.links = ∅
    · simp only [crawl_concurrent_run, if_pos h]
      rw [h]
      exact Finset.empty_inter _
    · simp only [crawl_concurrent_run, if_neg h]
      exact crawl_concurrent_round_disjoint C ord arr w
  | succ n ih =>
    intro w
    by_cases h : w.links = ∅
    · simp only [crawl_concurrent_run, if_pos h]
      rw [h]
      exact Finset.empty_inter _
    · simp only [crawl_concurrent_run, if_neg h]
      exact ih _

theorem crawl_sequential_run_disjoint {α : Type} [DecidableEq α] (C : Collab α)
    (ord : Finset α → List α) :
    ∀ (n : Nat) (w : Website α),
      (crawl_sequential_run C ord (n + 1) w).1.links ∩
        (crawl_sequential_run C ord (n + 1) w).1.links_visited = ∅ := by
  intro n
  induction n with
  | zero =>
    intro w
    by_cases h : w.links = ∅
    · simp only [crawl_sequential_run, if_pos h]
      rw [h]
      exact Finset.empty_inter _
    · simp only [crawl_sequential_run, if_neg h]
      exact crawl_sequential_round_disjoint C ord w
  | succ n ih =>
    intro w
    by_cases h : w.links = ∅
    · simp only [crawl_sequential_run, if_pos h]
      rw [h]
      exact Finset.empty_inter _
    · simp only [crawl_sequential_run, if_neg h]
      exact ih _

theorem scrape_concurrent_run_disjoint {α : Type} [DecidableEq α] (C : Collab α)
    (ord : Finset α → List α) (arrP : List (MPage α) → List (MPage α)) :
    ∀ (n : Nat) (w : Website α),
      (scrape_concurrent_run C ord arrP (n + 1) w).1.links ∩
        (scrape_concurrent_run C ord arrP (n + 1) w).1.links_visited = ∅ := by
  intro n
  induction n with
  | zero =>
    intro w
    by_cases h : w.links = ∅
    · simp only [scrape_concurrent_run, if_pos h]
      rw [h]
      exact Finset.empty_inter _
    · simp only [scrape_concurrent_run, if_neg h]
      exact scrape_concurrent_round_disjoint C ord arrP w
  | succ n ih =>
    intro w
    by_cases h : w.links = ∅
    · simp only [scrape_concurrent_run, if_pos h]
      rw [h]
      exact Finset.empty_inter _
    · simp only [scrape_concurrent_run, if_neg h]
      exact ih _

theorem crawl_concurrent_run_trace_not_visited {α : Type} [DecidableEq α]
    (C : Collab α) (ord : Finset α → List α)
    (arr : List (Finset α) → List (Finset α)) :
    ∀ (n : Nat) (w : Website α) (x : α),
      x ∈ (crawl_concurrent_run C ord arr n w).2 → x ∉ w.links_visited := by
  intro n
  induction n with
  | zero => intro w x hx; simp [crawl_concurrent_run] at hx
  | succ n ih =>
    intro w x hx
    by_cases h : w.links = ∅
    · simp [crawl_concurrent_run, if_pos h] at hx
    · simp only [crawl_concurrent_run, if_neg h, List.mem_append] at hx
      rcases hx with hx | hx
      · exact dispatch_pass_trace_not_visited C (ord w.links) w x hx
      · intro hmem
        exact ih _ x hx (crawl_concurrent_round_visited_mono C ord arr w hmem)

theorem crawl_concurrent_run_trace_nodup {α : Type} [DecidableEq α]
    (C : Collab α) (ord : Finset α → List α)
    (arr : List (Finset α) → List (Finset α))
    (hord : ∀ s : Finset α, (ord s).Perm s.toList) :
    ∀ (n : Nat) (w : Website α), (crawl_concurrent_run C ord arr n w).2.Nodup := by
  intro n
  induction n with
  | zero => intro w; exact List.nodup_nil
  | succ n ih =>
    intro w
    by_cases h : w.links = ∅
    · simp [crawl_concurrent_run, if_pos h]
    · simp only [crawl_concurrent_run, if_neg h]
      apply List.Nodup.append
      · exact ((hord w.links).nodup_iff.mpr (Finset.nodup_toList _)).sublist
          (dispatch_pass_trace_sublist C (ord w.links) w)
      · exact ih _
      · intro x hx1 hx2
        have hvis : x ∈ (crawl_concurrent_round C ord arr w).1.links_visited := by
          have := dispatch_pass_trace_visited_after C (ord w.links) w x hx1
          simpa [crawl_concurrent_round] using this
        exact crawl_concurrent_run_trace_not_visited C ord arr n _ x hx2 hvis

theorem scrape_concurrent_run_pages_cleared {α : Type} [DecidableEq α]
    (C : Collab α) (ord : Finset α → List α)
    (arrP : List (MPage α) → List (MPage α)) :
    ∀ (n : Nat) (w : Website α), (∀ q ∈ w.pages, q.html = "") →
      ∀ q ∈ (scrape_concurrent_run C ord arrP n w).1.pages, q.html = "" := by
  intro n
  induction n with
  | zero => intro w hw; exact hw
  | succ n ih =>
    intro w hw
    by_cases h : w.links = ∅
    · simp only [scrape_concurrent_run, if_pos h]
      exact hw
    · simp only [scrape_concurrent_run, if_neg h]
      apply ih
      obtain ⟨V, X, P, _, hP, heq⟩ := scrape_concurrent_round_shape C ord arrP w
      rw [heq]
      intro q hq
      simp only [List.mem_append] at hq
      rcases hq with hq | hq
      · exact hw q hq
      · exact hP q hq

/-! ## Claims -/

/-- C1: for every crawl and every URL the fetch collaborator is dispatched at
most once for that URL over the whole concurrent crawl (the full dispatch
trace mentions every URL at most once, within a round and across rounds),
because an admitted URL is inserted into `links_visited` before its fetch is
spawned, and `is_allowed` returns `false` for any URL already in the visited
set. -/
theorem C1_no_duplicate_fetch {α : Type} [DecidableEq α] (C : Collab α)
    (ord : Finset α → List α) (arr : List (Finset α) → List (Finset α))
    (hord : ∀ s : Finset α, (ord s).Perm s.toList) (n : Nat) (w : Website α) :
    (∀ u : α, (crawl_concurrent_run C ord arr n w).2.count u ≤ 1) ∧
    (∀ (v : Website α) (l : α), l ∈ v.links_visited → is_allowed C v l = false) := by
  constructor
  · intro u
    exact List.nodup_iff_count_le_one.mp
      (crawl_concurrent_run_trace_nodup C ord arr hord n w) u
  · intro v l h
    exact is_allowed_of_visited C v l h

/-- C1 witness: the `Nat` instance crawled for 5 rounds dispatches each URL
at most once. -/
theorem C1_no_duplicate_fetch_witness :
    (∀ u : Nat, (crawl_concurrent_run natCollab sortOrd id 5 natSite).2.count u ≤ 1) ∧
    (∀ (v : Website Nat) (l : Nat), l ∈ v.links_visited →
      is_allowed natCollab v l = false) :=
  C1_no_duplicate_fetch natCollab sortOrd id (fun s => sortOrd_perm_toList s) 5 natSite

/-- C2: for the same state and a deterministic (pure-function) fetcher and
extractor, the concurrent and the sequential crawl loops produce the same
final state — in particular the same `links_visited` — for any frontier
iteration orders and any channel arrival order; only the dispatch order
(the traces) can differ. -/
theorem C2_concurrent_sequential_equiv {α : Type} [DecidableEq α] (C : Collab α)
    (ord₁ ord₂ : Finset α → List α) (arr : List (Finset α) → List (Finset α))
    (hord₁ : ∀ s : Finset α, (ord₁ s).Perm s.toList)
    (hord₂ : ∀ s : Finset α, (ord₂ s).Perm s.toList)
    (harr : ∀ xs : List (Finset α), (arr xs).Perm xs) (n : Nat) (w : Website α) :
    (crawl_concurrent_run C ord₁ arr n w).1 = (crawl_sequential_run C ord₂ n w).1 ∧
    (crawl_concurrent_run C ord₁ arr n w).1.links_visited =
      (crawl_sequential_run C ord₂ n w).1.links_visited := by
  have h1 := crawl_concurrent_run_eq C ord₁ arr hord₁ harr n w
  have h2 := crawl_sequential_run_eq C ord₂ hord₂ n w
  exact ⟨h1.trans h2.symm, by rw [h1, h2]⟩

/-- C2 witness: both variants on the concrete `Nat` instance. -/
theorem C2_concurrent_sequential_equiv_witness :
    (crawl_concurrent_run natCollab sortOrd id 5 natSite).1 =
      (crawl_sequential_run natCollab sortOrd 5 natSite).1 ∧
    (crawl_concurrent_run natCollab sortOrd id 5 natSite).1.links_visited =
      (crawl_sequential_run natCollab sortOrd 5 natSite).1.links_visited :=
  C2_concurrent_sequential_equiv natCollab sortOrd sortOrd id
    (fun s => sortOrd_perm_toList s) (fun s => sortOrd_perm_toList s)
    (fun xs => List.Perm.refl xs) 5 natSite

/-- C3: after every round's merge (`self.links = new_links - links_visited`)
the frontier and the visited set are disjoint, in all three crawl variants
and after every round of a whole run; and the visited set only grows — no
round and no run of any variant removes an element from `links_visited`. -/
theorem C3_merge_invariants {α : Type} [DecidableEq α] (C : Collab α)
    (ord : Finset α → List α) (arr : List (Finset α) → List (Finset α))
    (arrP : List (MPage α) → List (MPage α)) (w : Website α) :
    ((crawl_concurrent_round C ord arr w).1.links ∩
      (crawl_concurrent_round C ord arr w).1.links_visited = ∅) ∧
    ((crawl_sequential_round C ord w).1.links ∩
      (crawl_sequential_round C ord w).1.links_visited = ∅) ∧
    ((scrape_concurrent_round C ord arrP w).1.links ∩
      (scrape_concurrent_round C ord arrP w).1.links_visited = ∅) ∧
    (w.links_visited ⊆ (crawl_concurrent_round C ord arr w).1.links_visited) ∧
    (w.links_visited ⊆ (crawl_sequential_round C ord w).1.links_visited) ∧
    (w.links_visited ⊆ (scrape_concurrent_round C ord arrP w).1.links_visited) ∧
    (∀ n : Nat, w.links_visited ⊆ (crawl_concurrent_run C ord arr n w).1.links_visited) ∧
    (∀ n : Nat, w.links_visited ⊆ (crawl_sequential_run C ord n w).1.links_visited) ∧
    (∀ n : Nat, w.links_visited ⊆ (scrape_concurrent_run C ord arrP n w).1.links_visited) ∧
    (∀ n : Nat, (crawl_concurrent_run C ord arr (n + 1) w).1.links ∩
      (crawl_concurrent_run C ord arr (n + 1) w).1.links_visited = ∅) ∧
    (∀ n : Nat, (crawl_sequential_run C ord (n + 1) w).1.links ∩
      (crawl_sequential_run C ord (n + 1) w).1.links_visited = ∅) ∧
    (∀ n : Nat, (scrape_concurrent_run C ord arrP (n + 1) w).1.links ∩
      (scrape_concurrent_run C ord arrP (n + 1) w).1.links_visited = ∅) :=
  ⟨crawl_concurrent_round_disjoint C ord arr w,
   crawl_sequential_round_disjoint C ord w,
   scrape_concurrent_round_disjoint C ord arrP w,
   crawl_concurrent_round_visited_mono C ord arr w,
   crawl_sequential_round_visited_mono C ord w,
   scrape_concurrent_round_visited_mono C ord arrP w,
   fun n => crawl_concurrent_run_visited_mono C ord arr n w,
   fun n => crawl_sequential_run_visited_mono C ord n w,
   fun n => scrape_concurrent_run_visited_mono C ord arrP n w,
   fun n => crawl_concurrent_run_disjoint C ord arr n w,
   fun n => crawl_sequential_run_disjoint C ord n w,
   fun n => scrape_concurrent_run_disjoint C ord arrP n w⟩

/-- C4 counterexample: the number of rounds does not equal the graph's
diameter from the seed.  On the one-page `Unit` site whose page has no
out-links the diameter from the seed is `0`, yet after `0` rounds the
frontier is still nonempty — the loop runs exactly one round (dispatching
one fetch) before the frontier empties. -/
theorem C4_counterexample_rounds_ne_diameter :
    (crawl_sequential_run unitCollab sortOrd 0 unitSite).1.links ≠ ∅ ∧
    (crawl_sequential_run unitCollab sortOrd 1 unitSite).1.links = ∅ ∧
    (crawl_sequential_run unitCollab sortOrd 1 unitSite).2 = [()] := by
  refine ⟨by decide, by decide, by decide⟩

/-- C4 (amended): over a finite URL universe, with a total (failure-free)
deterministic fetcher/extractor pair, both crawl loops terminate: the
frontier is empty after at most `|universe| + 2` rounds (each round either
admits a URL, strictly growing the bounded visited set, or admits none and
empties the frontier at the merge).  The number of rounds executed is in
general the BFS depth plus one, not the diameter itself. -/
theorem C4_termination_bounded {α : Type} [DecidableEq α] [Fintype α] (C : Collab α)
    (ord : Finset α → List α) (arr : List (Finset α) → List (Finset α))
    (hord : ∀ s : Finset α, (ord s).Perm s.toList)
    (harr : ∀ xs : List (Finset α), (arr xs).Perm xs) (w : Website α) :
    (crawl_sequential_run C ord (Fintype.card α + 2) w).1.links = ∅ ∧
    (crawl_concurrent_run C ord arr (Fintype.card α + 2) w).1.links = ∅ := by
  have hcard : (Finset.univ \ w.links_visited).card ≤ Fintype.card α :=
    Finset.card_le_univ _
  constructor
  · rw [crawl_sequential_run_eq C ord hord]
    exact crawl_run_canon_terminates C (Fintype.card α) _ w hcard le_rfl
  · rw [crawl_concurrent_run_eq C ord arr hord harr]
    exact crawl_run_canon_terminates C (Fintype.card α) _ w hcard le_rfl

/-- C4 witness: the `Fin 3` instance reaches an empty frontier within
`3 + 2` rounds in both variants. -/
theorem C4_termination_bounded_witness :
    (crawl_sequential_run finCollab sortOrd (Fintype.card (Fin 3) + 2) finSite).1.links = ∅ ∧
    (crawl_concurrent_run finCollab sortOrd id (Fintype.card (Fin 3) + 2) finSite).1.links = ∅ :=
  C4_termination_bounded finCollab sortOrd id (fun s => sortOrd_perm_toList s)
    (fun xs => List.Perm.refl xs) finSite

/-- C5: with `follow_links = HOSTNAME`, for a candidate that is not already
visited, not blacklisted and not robots-denied, `is_allowed` returns `true`
exactly when the candidate's host equals the seed's host. -/
theorem C5_hostname_scope {α : Type} [DecidableEq α] (C : Collab α) (w : Website α)
    (link : α)
    (hfollow : w.configuration.follow_links = FollowLinks.HOSTNAME)
    (hnv : link ∉ w.links_visited)
    (hbl : black_list_contains w.configuration.blacklist_url link = false)
    (hrob : w.configuration.respect_robots_txt = true → C.robots link = true) :
    is_allowed C w link = true ↔ C.host link = C.host w.domain := by
  have hrobc : (w.configuration.respect_robots_txt && !(C.robots link)) = false := by
    cases hr : w.configuration.respect_robots_txt
    · rfl
    · simp [hrob hr]
  simp [is_allowed, hnv, hbl, hrobc, hfollow]

/-- C5 witness: under the seed `https://a.com/`, the cross-host link
`https://b.com/x` is refused and the same-host link `https://a.com/y` is
admitted. -/
theorem C5_hostname_scope_witness :
    is_allowed urlCollab siteA ⟨"https", some "b.com", "/x", none, none⟩ = false ∧
    is_allowed urlCollab siteA ⟨"https", some "a.com", "/y", none, none⟩ = true := by
  constructor
  · have h := C5_hostname_scope urlCollab siteA ⟨"https", some "b.com", "/x", none, none⟩
      (by decide) (by decide) (by decide) (fun hr => by exact absurd hr (by decide))
    cases hh : is_allowed urlCollab siteA ⟨"https", some "b.com", "/x", none, none⟩
    · rfl
    · exact absurd (h.mp hh) (by decide)
  · exact (C5_hostname_scope urlCollab siteA ⟨"https", some "a.com", "/y", none, none⟩
      (by decide) (by decide) (by decide) (fun hr => by exact absurd hr (by decide))).mpr
      (by decide)

/-- C6 counterexample: resolving the unsupported-scheme href `tel:123`
against the base `https://a.com/` does not yield the base URL: `tel:123`
carries its own scheme, so the join succeeds and `abs_path` returns
`tel:123` itself (the repository's own test exercises the fallback with the
unparsable `tel://+212 3456` instead). -/
theorem C6_counterexample_tel_href :
    (Page.build "https://a.com/" "").bind (fun p => p.abs_path "tel:123") =
      some ⟨"tel", none, "123", none, none⟩ ∧
    (⟨"tel", none, "123", none, none⟩ : Url) ≠
      ⟨"https", some "a.com", "/", none, none⟩ ∧
    (Page.build "https://a.com/" "").map Page.base =
      some ⟨"https", some "a.com", "/", none, none⟩ := by
  refine ⟨by decide, by decide, by decide⟩

/-- C6 (amended): against base `https://a.com/`, `abs_path` resolves
`/page#hash` to `https://a.com/page` and `/page?q=1#hash` to
`https://a.com/page?q=1` (both fragment-free); an href that is itself an
absolute URL of an unsupported scheme, such as `tel:123`, resolves to that
URL itself, while an href that cannot be parsed at all, such as
`tel://+212 3456`, falls back to the base URL; on every built page the
resolution is total (never panics) and every URL it returns is
fragment-free. -/
theorem C6_abs_path_normalization :
    (∀ p : Page, Page.build "https://a.com/" "" = some p →
      p.abs_path "/page#hash" = some ⟨"https", some "a.com", "/page", none, none⟩ ∧
      p.abs_path "/page?q=1#hash" =
        some ⟨"https", some "a.com", "/page", some "q=1", none⟩ ∧
      p.abs_path "tel:123" = some ⟨"tel", none, "123", none, none⟩ ∧
      p.abs_path "tel://+212 3456" = some ⟨"https", some "a.com", "/", none, none⟩) ∧
    (∀ (u h : String) (p : Page), Page.build u h = some p →
      ∀ href : String, (p.abs_path href).isSome = true) ∧
    (∀ (p : Page) (href : String) (r : Url), p.abs_path href = some r →
      r.fragment = none) := by
  refine ⟨?_, ?_, ?_⟩
  · intro p hp
    have hb : Page.build "https://a.com/" "" =
        some ⟨"https://a.com/", "", ⟨"https", some "a.com", "/", none, none⟩⟩ := by decide
    have hpe : (⟨"https://a.com/", "", ⟨"https", some "a.com", "/", none, none⟩⟩ : Page) = p :=
      Option.some.inj (hb.symm.trans hp)
    rw [← hpe]
    refine ⟨by decide, by decide, by decide, by decide⟩
  · intro u h p hp href
    unfold Page.build at hp
    cases hu : Url.parse u with
    | none => rw [hu] at hp; cases hp
    | some b =>
      rw [hu] at hp
      have hpe : (⟨u, h, b⟩ : Page) = p := Option.some.inj hp
      rw [← hpe]
      unfold Page.abs_path
      simp only [hu]
      rfl
  · intro p href r habs
    unfold Page.abs_path at habs
    cases hu : Url.parse p.url with
    | none => rw [hu] at habs; cases habs
    | some fb =>
      rw [hu] at habs
      have := Option.some.inj habs
      rw [← this]
      rfl

/-- C6 witness: the amended theorem evaluated on the built page of
`https://a.com/` and the href `/page#hash`. -/
theorem C6_abs_path_normalization_witness :
    ∃ p : Page, Page.build "https://a.com/" "" = some p ∧
      p.abs_path "/page#hash" = some ⟨"https", some "a.com", "/page", none, none⟩ :=
  ⟨⟨"https://a.com/", "", ⟨"https", some "a.com", "/", none, none⟩⟩, by decide,
    (C6_abs_path_normalization.1 _ (by decide)).1⟩

/-- C7: the fetch helper returns a string to its caller on every input —
any outcome other than a 200 response with successfully extracted text
yields the empty string; the visited set produced by a crawl round is
`Visited ∪ admitted`, a formula independent of the fetch outcomes, so a
per-URL fetch failure never prevents the URL's insertion into the visited
set; an admitted URL is in the visited set after its round; and a URL whose
fetched body is empty contributes an empty discovered-link set. -/
theorem C7_fetch_failure_isolation :
    (∀ r : HttpResponse, (∀ t : String, r ≠ HttpResponse.ok 200 (some t)) →
      fetch_page_html_async r = "") ∧
    (∀ (α : Type) [DecidableEq α] (C : Collab α) (ord : Finset α → List α)
      (w : Website α), (∀ s : Finset α, (ord s).Perm s.toList) →
      (crawl_sequential_round C ord w).1.links_visited =
        w.links_visited ∪ admitted C w) ∧
    (∀ (α : Type) [DecidableEq α] (C : Collab α) (ord : Finset α → List α)
      (w : Website α) (l : α), (∀ s : Finset α, (ord s).Perm s.toList) →
      l ∈ admitted C w → l ∈ (crawl_sequential_round C ord w).1.links_visited) ∧
    (∀ (α : Type) [DecidableEq α] (C : Collab α) (l : α),
      (∀ u : α, C.extractAbs u "" = ∅) → C.body l = "" → C.fetchLinks l = ∅) := by
  refine ⟨?_, ?_, ?_, ?_⟩
  · intro r h
    match r with
    | HttpResponse.err => rfl
    | HttpResponse.ok status text =>
      by_cases hs : status = 200
      · subst hs
        match text with
        | none => rfl
        | some t => exact absurd rfl (h t)
      · simp [fetch_page_html_async, hs]
  · intro α _ C ord w hord
    rw [crawl_sequential_round_eq C ord w (hord _)]
    rfl
  · intro α _ C ord w l hord hl
    rw [crawl_sequential_round_eq C ord w (hord _)]
    exact Finset.mem_union_right _ hl
  · intro α _ C l hE hb
    show C.extractAbs l (C.body l) = ∅
    rw [hb]
    exact hE l

/-- C7 witness: the helper on a failed send, the round-visited formula, the
admitted seed of the `Nat` instance, and the empty-body page `2`. -/
theorem C7_fetch_failure_isolation_witness :
    fetch_page_html_async HttpResponse.err = "" ∧
    (crawl_sequential_round natCollab sortOrd natSite).1.links_visited =
      natSite.links_visited ∪ admitted natCollab natSite ∧
    (0 : Nat) ∈ (crawl_sequential_round natCollab sortOrd natSite).1.links_visited ∧
    natCollab.fetchLinks 2 = ∅ :=
  ⟨C7_fetch_failure_isolation.1 HttpResponse.err (fun t h => HttpResponse.noConfusion h),
   C7_fetch_failure_isolation.2.1 Nat natCollab sortOrd natSite
     (fun s => sortOrd_perm_toList s),
   C7_fetch_failure_isolation.2.2.1 Nat natCollab sortOrd natSite 0
     (fun s => sortOrd_perm_toList s) (by decide),
   C7_fetch_failure_isolation.2.2.2 Nat natCollab 2 (fun u => rfl) (by decide)⟩

/-- C8 counterexample: a crawl with `configuration.concurrency = 0` does not
fail before any URL is dispatched — rayon's builder treats `num_threads(0)`
as automatic sizing, so `crawl()` on the `Nat` site with zero concurrency
returns successfully having dispatched and visited all three pages. -/
theorem C8_counterexample_zero_concurrency :
    zero_concurrency_crawl = some ([0, 1, 2], [0, 1, 2]) := by decide

/-- C8 (amended): an unparsable seed URL is fatal at setup — `Website::new`
panics (modelled: returns `none`) before any crawl can exist; but a
concurrency of zero is not a setup failure: the thread-pool builder maps it
to a positive automatic thread count and `build()` succeeds, so `crawl()`
always proceeds to the dispatch loop. -/
theorem C8_setup_failures :
    (∀ s : String, Url.parse s = none → (Website.new s).isNone = true) ∧
    (∀ (α : Type) [DecidableEq α] (C : Collab α) (ord : Finset α → List α)
      (arr : List (Finset α) → List (Finset α)) (dt fuel : Nat) (w : Website α),
      Website.crawl C ord arr dt fuel w =
        Except.ok (crawl_concurrent_run C ord arr fuel w)) ∧
    (∀ c dt : Nat, 0 < dt →
      ∃ n : Nat, create_thread_pool c dt = Except.ok n ∧ 0 < n) := by
  refine ⟨?_, ?_, ?_⟩
  · intro s h
    unfold Website.new
    rw [h]
    rfl
  · intro α _ C ord arr dt fuel w
    rfl
  · intro c dt hdt
    by_cases hc : c = 0
    · subst hc
      exact ⟨dt, rfl, hdt⟩
    · refine ⟨c, ?_, Nat.pos_of_ne_zero hc⟩
      simp [create_thread_pool, hc]

/-- C8 witness: the unparsable seed `"not a url"`, the crawl on the `Nat`
site, and the zero-concurrency pool. -/
theorem C8_setup_failures_witness :
    (Website.new "not a url").isNone = true ∧
    Website.crawl natCollab sortOrd id 8 5 natSite =
      Except.ok (crawl_concurrent_run natCollab sortOrd id 5 natSite) ∧
    (∃ n : Nat, create_thread_pool 0 8 = Except.ok n ∧ 0 < n) :=
  ⟨C8_setup_failures.1 "not a url" (by decide),
   C8_setup_failures.2.1 Nat natCollab sortOrd id 8 5 natSite,
   C8_setup_failures.2.2 0 8 (by decide)⟩

theorem website_links_empty_eta {α : Type} (w : Website α) (h : w.links = ∅) :
    ({ w with links := ∅ } : Website α) = w := by
  cases w
  rw [← h]

theorem dispatch_pass_refuse_all {α : Type} [DecidableEq α] (C : Collab α)
    (w : Website α) (h : ∀ l : α, is_allowed C w l = false) :
    ∀ L : List α, dispatch_pass C w L = (w, []) := by
  intro L
  induction L with
  | nil => rfl
  | cons l ls ih =>
    simp only [dispatch_pass, h l, Bool.false_eq_true, if_false]
    exact ih

theorem crawl_concurrent_run_of_empty {α : Type} [DecidableEq α] (C : Collab α)
    (ord : Finset α → List α) (arr : List (Finset α) → List (Finset α)) :
    ∀ (n : Nat) (w : Website α), w.links = ∅ →
      crawl_concurrent_run C ord arr n w = (w, []) := by
  intro n w h
  cases n with
  | zero => rfl
  | succ n => simp [crawl_concurrent_run, h]

theorem crawl_sequential_run_of_empty {α : Type} [DecidableEq α] (C : Collab α)
    (ord : Finset α → List α) :
    ∀ (n : Nat) (w : Website α), w.links = ∅ →
      crawl_sequential_run C ord n w = (w, []) := by
  intro n w h
  cases n with
  | zero => rfl
  | succ n => simp [crawl_sequential_run, h]

theorem crawl_concurrent_round_refuse_all {α : Type} [DecidableEq α] (C : Collab α)
    (ord : Finset α → List α) (arr : List (Finset α) → List (Finset α))
    (harr : ∀ xs : List (Finset α), (arr xs).Perm xs) (w : Website α)
    (h : ∀ l : α, is_allowed C w l = false) :
    crawl_concurrent_round C ord arr w = ({ w with links := ∅ }, []) := by
  simp only [crawl_concurrent_round, dispatch_pass_refuse_all C w h (ord w.links)]
  have harr0 : arr ([] : List (Finset α)) = [] := (harr []).eq_nil
  simp only [List.map_nil, harr0, List.foldl_nil, Finset.empty_sdiff]

theorem crawl_sequential_pass_refuse_all {α : Type} [DecidableEq α] (C : Collab α)
    (w : Website α) (h : ∀ l : α, is_allowed C w l = false) :
    ∀ (L : List α) (acc : Finset α),
      crawl_sequential_pass C w L acc = ({ w with links := acc \ w.links_visited }, []) := by
  intro L
  induction L with
  | nil => intro acc; rfl
  | cons l ls ih =>
    intro acc
    simp only [crawl_sequential_pass, h l, Bool.false_eq_true, if_false]
    exact ih acc

/-- C9: with `follow_links = NONE`, `is_allowed` refuses every URL — the
seed included — so one round dispatches nothing, discovers nothing, and
empties the frontier: both crawl variants return after a single round with
the visited set unchanged (empty for a fresh `Website`, so `get_links`
returns the empty set) and an empty dispatch trace — no fetch is ever
invoked. -/
theorem C9_follow_none_no_visit {α : Type} [DecidableEq α] (C : Collab α)
    (ord : Finset α → List α) (arr : List (Finset α) → List (Finset α))
    (harr : ∀ xs : List (Finset α), (arr xs).Perm xs)
    (w : Website α) (hf : w.configuration.follow_links = FollowLinks.NONE) :
    (∀ l : α, is_allowed C w l = false) ∧
    (∀ n : Nat, crawl_concurrent_run C ord arr (n + 1) w = ({ w with links := ∅ }, [])) ∧
    (∀ n : Nat, crawl_sequential_run C ord (n + 1) w = ({ w with links := ∅ }, [])) ∧
    (∀ n : Nat, get_links (crawl_concurrent_run C ord arr (n + 1) w).1 = w.links_visited) ∧
    (∀ n : Nat, get_links (crawl_sequential_run C ord (n + 1) w).1 = w.links_visited) := by
  have hall : ∀ l : α, is_allowed C w l = false := by
    intro l
    unfold is_allowed
    rw [hf]
    simp [ite_self]
  have hconc : ∀ n : Nat,
      crawl_concurrent_run C ord arr (n + 1) w = ({ w with links := ∅ }, []) := by
    intro n
    by_cases h : w.links = ∅
    · simp only [crawl_concurrent_run, if_pos h]
      rw [website_links_empty_eta w h]
    · simp only [crawl_concurrent_run, if_neg h,
        crawl_concurrent_round_refuse_all C ord arr harr w hall]
      rw [crawl_concurrent_run_of_empty C ord arr n _ rfl]
      rfl
  have hseq : ∀ n : Nat,
      crawl_sequential_run C ord (n + 1) w = ({ w with links := ∅ }, []) := by
    intro n
    by_cases h : w.links = ∅
    · simp only [crawl_sequential_run, if_pos h]
      rw [website_links_empty_eta w h]
    · have hround : crawl_sequential_round C ord w = ({ w with links := ∅ }, []) := by
        simp only [crawl_sequential_round,
          crawl_sequential_pass_refuse_all C w hall (ord w.links) ∅, Finset.empty_sdiff]
      simp only [crawl_sequential_run, if_neg h, hround]
      rw [crawl_sequential_run_of_empty C ord n _ rfl]
      rfl
  refine ⟨hall, hconc, hseq, ?_, ?_⟩
  · intro n
    rw [hconc n]
    rfl
  · intro n
    rw [hseq n]
    rfl

/-- C9 witness: the `Nat` site reconfigured to `NONE`. -/
theorem C9_follow_none_no_visit_witness :
    (∀ l : Nat, is_allowed natCollab siteNone l = false) ∧
    (∀ n : Nat, crawl_concurrent_run natCollab sortOrd id (n + 1) siteNone =
      ({ siteNone with links := ∅ }, [])) ∧
    (∀ n : Nat, crawl_sequential_run natCollab sortOrd (n + 1) siteNone =
      ({ siteNone with links := ∅ }, [])) ∧
    (∀ n : Nat, get_links (crawl_concurrent_run natCollab sortOrd id (n + 1) siteNone).1 =
      siteNone.links_visited) ∧
    (∀ n : Nat, get_links (crawl_sequential_run natCollab sortOrd (n + 1) siteNone).1 =
      siteNone.links_visited) :=
  C9_follow_none_no_visit natCollab sortOrd id (fun xs => List.Perm.refl xs) siteNone rfl

theorem page_html_empty_eta (p : Page) (h : p.html = "") :
    ({ p with html := "" } : Page) = p := by
  cases p
  rw [← h]

/-- C10: `Page::links` clears the page's stored HTML as a side effect, so it
is not idempotent: whenever a call returns, the returned page carries empty
HTML and a second call on it returns the empty set (the empty document has
no hrefs); consequently every page pushed into the page store by
`scrape_concurrent` — which takes the page's links before pushing — has an
empty HTML body. -/
theorem C10_links_clears_html :
    (∀ extractHrefs : String → List String, extractHrefs "" = [] →
      ∀ (p p₁ : Page) (s₁ : Finset String),
        Page.links extractHrefs p = some (s₁, p₁) →
        p₁.html = "" ∧ Page.links extractHrefs p₁ = some (∅, p₁)) ∧
    (∀ (α : Type) [DecidableEq α] (C : Collab α) (ord : Finset α → List α)
      (arrP : List (MPage α) → List (MPage α)) (n : Nat) (w : Website α),
      (∀ q ∈ w.pages, q.html = "") →
      ∀ q ∈ (scrape_concurrent_run C ord arrP n w).1.pages, q.html = "") := by
  constructor
  · intro extractHrefs he p p₁ s₁ hl
    simp only [Page.links] at hl
    cases hm : (extractHrefs p.html).mapM (fun h => p.abs_path h) with
    | none => rw [hm] at hl; cases hl
    | some us =>
      rw [hm] at hl
      have h2 := Option.some.inj hl
      have hp₁ : ({ p with html := "" } : Page) = p₁ := congrArg Prod.snd h2
      have hh : p₁.html = "" := by rw [← hp₁]
      refine ⟨hh, ?_⟩
      simp only [Page.links, hh, he]
      rw [page_html_empty_eta p₁ hh]
      rfl
  · intro α _ C ord arrP n w hw
    exact scrape_concurrent_run_pages_cleared C ord arrP n w hw

/-- C10 witness: the concrete page of `https://a.com/` with a concrete
extractor, and the `Nat` scrape run. -/
theorem C10_links_clears_html_witness :
    (demoPageCleared.html = "" ∧
      Page.links demoExtract demoPageCleared = some (∅, demoPageCleared)) ∧
    (∀ q ∈ (scrape_concurrent_run natCollab sortOrd id 5 natSite).1.pages,
      q.html = "") :=
  ⟨C10_links_clears_html.1 demoExtract rfl demoPage demoPageCleared
      {"https://a.com/page"} (by decide),
   C10_links_clears_html.2 Nat natCollab sortOrd id 5 natSite
     (fun q hq => absurd hq (List.not_mem_nil q))⟩

end Spider
